import Mathlib

/-!
Verification development for the OCR field-extraction engine.

The Python sources embedded here:
* `test_document_ai/lib/smart_field_extractor.py` (`SmartFieldExtractor`)
* `test_document_ai/lib/form_processor.py` (`FormFieldExtractor`)
* `test_ocr_for_doc1/lib/data_parser.py` (`SequentialKeyParser`, `KeyValuePairParser`)

Texts are modelled as `List Char`, Python floats as `ℚ`, Python dicts used as
ordered string-keyed maps as association lists with in-place update.
Calls into Python's `re` module are modelled as explicit search functions:
a compiled pattern is a pair of its source text and a function returning the
match spans (the regex engine is an external collaborator of the core); where
a claim needs the behaviour of one concrete pattern, a hand-written search
function faithful to that pattern is supplied.
-/

abbrev Txt := List Char

/-- Python slice `l[a:b]` for non-negative indices (clamps out-of-range). -/
def pySlice (l : List α) (a b : Nat) : List α :=
  (l.take b).drop a

/-- Characters removed by Python `str.strip()` (ASCII whitespace plus the
ideographic space; the characters relevant to this code base). -/
def isPySpace (c : Char) : Bool :=
  c = ' ' || c = '\t' || c = '\n' || c = '\r' || c = '\x0b' || c = '\x0c' || c = '　'

/-- Remove trailing characters satisfying `ws`. -/
def stripRight (ws : Char → Bool) : Txt → Txt
  | [] => []
  | c :: cs =>
    let r := stripRight ws cs
    if r.isEmpty && ws c then [] else c :: r

/-- Python `str.strip()`. -/
def pyStrip (s : Txt) : Txt :=
  stripRight isPySpace (s.dropWhile isPySpace)

/-- Python truthiness of an optional string (`None` and `""` are falsy). -/
def pyTruthy : Option Txt → Bool
  | none => false
  | some v => !v.isEmpty

/-- Python dict assignment `d[k] = v` on an insertion-ordered association
list: an existing key keeps its position, a new key is appended. -/
def dictSet (d : List (Txt × α)) (k : Txt) (v : α) : List (Txt × α) :=
  match d with
  | [] => [(k, v)]
  | (k', v') :: rest => if k' = k then (k, v) :: rest else (k', v') :: dictSet rest k v

/-- Lookup in the association-list model of a Python dict. -/
def dictGet (d : List (Txt × α)) (k : Txt) : Option α :=
  match d with
  | [] => none
  | (k', v) :: rest => if k' = k then some v else dictGet rest k

/-- Length of the leading run of characters satisfying `cls`. -/
def leadRun (cls : Char → Bool) : Txt → Nat
  | [] => 0
  | c :: cs => if cls c then leadRun cls cs + 1 else 0

/-- `hasRun cls k s`: some contiguous run of ≥ `k` characters of `s` all
satisfy `cls`.  This is `re.search` of the pattern `[cls]{k,}` (for `k ≥ 1`)
viewed as a Boolean. -/
def hasRun (cls : Char → Bool) (k : Nat) : Txt → Bool
  | [] => false
  | c :: cs => decide (k ≤ leadRun cls (c :: cs)) || hasRun cls k cs

/-- Python substring containment `needle in haystack`. -/
def substrTest (needle : Txt) : Txt → Bool
  | [] => needle.isPrefixOf []
  | c :: cs => needle.isPrefixOf (c :: cs) || substrTest needle cs

/-- Python `text.split('\n')` (keeps empty fragments). -/
def splitOnNl : Txt → List Txt
  | [] => [[]]
  | c :: cs =>
    if c = '\n' then [] :: splitOnNl cs
    else
      match splitOnNl cs with
      | [] => [[c]]
      | l :: ls => (c :: l) :: ls

/-! ## Character classes appearing in the validators' regular expressions -/

/-- Class `[ひ-ゞァ-ヾ一-龯a-zA-Z]` (and the identical set `[一-龯ひ-ゞァ-ヾa-zA-Z]`
of `smart_field_extractor.py`): hiragana/katakana subranges, CJK ideographs,
Latin letters. -/
def jpNameCls (c : Char) : Bool :=
  (0x3072 ≤ c.toNat && c.toNat ≤ 0x309E) || (0x30A1 ≤ c.toNat && c.toNat ≤ 0x30FE) ||
  (0x4E00 ≤ c.toNat && c.toNat ≤ 0x9FAF) || c.isAlpha

/-- Class `[一-龯]`: CJK ideographs. -/
def kanjiCls (c : Char) : Bool :=
  0x4E00 ≤ c.toNat && c.toNat ≤ 0x9FAF

/-- Class `[\d,，]` of the smart amount validator. -/
def amountClsSmart (c : Char) : Bool :=
  c.isDigit || c = ',' || c = '，'

/-- Class `[\d,\.,，．]` of the form amount validator. -/
def amountClsForm (c : Char) : Bool :=
  c.isDigit || c = ',' || c = '.' || c = '，' || c = '．'

/-- Class `[\d\-−\(\)]` of the smart phone validator (digits, hyphen-minus,
minus sign, parentheses). -/
def phoneClsSmart (c : Char) : Bool :=
  c.isDigit || c = '-' || c = '−' || c = '(' || c = ')'

/-- Class `[\d\-－（）()]` of the form phone validator (digits, hyphen-minus,
full-width hyphen, full-width and ASCII parentheses). -/
def phoneClsForm (c : Char) : Bool :=
  c.isDigit || c = '-' || c = '－' || c = '（' || c = '）' || c = '(' || c = ')'

/-- Class `[\d年月日令和平成]` of the date validators. -/
def dateCls (c : Char) : Bool :=
  c.isDigit || c = '年' || c = '月' || c = '日' || c = '令' || c = '和' || c = '平' || c = '成'

/-- Class `[都道府県市区町村丁目番地号]` of the form address validator. -/
def addressMarkCls (c : Char) : Bool :=
  "都道府県市区町村丁目番地号".data.contains c

/-- Class `[株式会社有限会社㈱㈲法人]` of the form company validator. -/
def companyMarkCls (c : Char) : Bool :=
  "株式会社有限㈱㈲法人".data.contains c

/-- Class `[部課係室グループ]` of the form department validator. -/
def deptMarkCls (c : Char) : Bool :=
  "部課係室グループ".data.contains c

/-! ## Token model (shared by both layout-rich extractors) -/

/-- Normalized bounding box (the dict built by `_get_normalized_coordinates`). -/
structure BBox where
  xMin : ℚ
  yMin : ℚ
  xMax : ℚ
  yMax : ℚ
  cx : ℚ
  cy : ℚ
deriving DecidableEq, Repr

/-- One normalized vertex of a bounding polygon; a missing `x`/`y` key is `none`. -/
structure Vertex where
  x : Option ℚ
  y : Option ℚ
deriving DecidableEq, Repr

/-- `_get_normalized_coordinates` of both extractors: min/max/mean over the
supplied vertex coordinates; the empty dict is `none`. -/
def getNormalizedCoordinates (poly : List Vertex) : Option BBox :=
  match poly.filterMap (·.x), poly.filterMap (·.y) with
  | [], _ => none
  | _, [] => none
  | x :: xs, y :: ys =>
    some { xMin := xs.foldl min x, yMin := ys.foldl min y,
           xMax := xs.foldl max x, yMax := ys.foldl max y,
           cx := (xs.foldl (· + ·) x) / (xs.length + 1),
           cy := (ys.foldl (· + ·) y) / (ys.length + 1) }

/-- Raw engine token: first text segment `(startIndex, endIndex)` when present,
layout confidence, bounding polygon. -/
structure RawTok where
  segments : List (Nat × Nat)
  confidence : ℚ
  poly : List Vertex
deriving DecidableEq, Repr

/-- Normalized token (the dicts built by `_extract_token_info` /
`_extract_tokens`). -/
structure STok where
  index : Nat
  text : Txt
  confidence : ℚ
  startPos : Nat
  endPos : Nat
  coords : Option BBox
deriving DecidableEq, Repr

/-- `SmartFieldExtractor._extract_token_info` and (identically for the parts
used downstream) `FormFieldExtractor._extract_tokens`: a raw token with no
text segment is dropped; otherwise its text is the full-text slice at the
first segment. -/
def extractTokenInfo (raw : List RawTok) (fullText : Txt) : List STok :=
  raw.enum.filterMap fun (idx, tok) =>
    match tok.segments with
    | [] => none
    | (s, e) :: _ =>
      some { index := idx, text := pySlice fullText s e, confidence := tok.confidence,
             startPos := s, endPos := e, coords := getNormalizedCoordinates tok.poly }

/-! ## SmartFieldExtractor -/

/-- A compiled regular expression as the core sees it: its source text plus
the external engine's `finditer` result (list of match spans). -/
structure Pat where
  src : Txt
  find : Txt → List (Nat × Nat)

/-- Per-field configuration of `SmartFieldExtractor.field_patterns`. -/
structure FieldConfig where
  patterns : List Pat
  contextClues : List Txt

/-- A candidate value (the dicts appended to `found_values`). -/
structure Cand where
  val : Txt
  conf : ℚ
  method : Txt
  coords : Option BBox
  tag : Txt
deriving DecidableEq, Repr

/-- `SmartFieldExtractor._is_valid_field_value`. -/
def isValidFieldValueSmart (text : Txt) (fieldType : Txt) : Bool :=
  let t := pyStrip text
  if t.length < 1 then false
  else if fieldType = "氏名".data then hasRun jpNameCls 2 t
  else if fieldType = "金額".data then t.any amountClsSmart
  else if fieldType = "住所".data then decide (3 ≤ t.length) && t.any kanjiCls
  else if fieldType = "電話番号".data then hasRun phoneClsSmart 8 t
  else if fieldType = "日付".data then t.any dateCls
  else if fieldType = "メールアドレス".data then t.contains '@' || t.contains '＠'
  else if fieldType = "会社名".data then decide (2 ≤ t.length)
  else true

/-- `SmartFieldExtractor._calculate_pattern_confidence`. -/
def calculatePatternConfidence (text : Txt) (pattern : Txt) : ℚ :=
  let base : ℚ := 9/10
  let base := if 10 ≤ text.length then base + 5/100
              else if text.length ≤ 2 then base - 2/10 else base
  let base := if substrTest ['\\', 'd', '\x7b'] pattern then base + 5/100 else base
  let base := if pattern.contains '[' then base + 3/100 else base
  min 1 (max (1/10) base)

/-- `SmartFieldExtractor._find_coordinates_for_text_span`: union of the boxes
of every token whose span overlaps `[s, e)` in the sense of the source's
four-way test. -/
def findCoordinatesForTextSpan (tokens : List STok) (s e : Nat) : Option BBox :=
  let matching := tokens.filter fun t =>
    (decide (s ≤ t.startPos) && decide (t.endPos ≤ e)) ||
    (decide (t.startPos ≤ s) && decide (e ≤ t.endPos)) ||
    (decide (s ≤ t.startPos) && decide (t.startPos ≤ e)) ||
    (decide (s ≤ t.endPos) && decide (t.endPos ≤ e))
  match matching.filterMap (·.coords) with
  | [] => none
  | c :: cs =>
    let xMin := (cs.map (·.xMin)).foldl min c.xMin
    let yMin := (cs.map (·.yMin)).foldl min c.yMin
    let xMax := (cs.map (·.xMax)).foldl max c.xMax
    let yMax := (cs.map (·.yMax)).foldl max c.yMax
    some { xMin := xMin, yMin := yMin, xMax := xMax, yMax := yMax,
           cx := (xMin + xMax) / 2, cy := (yMin + yMax) / 2 }

/-- `SmartFieldExtractor._find_context_based_values`: every token containing
the clue opens a window of the 5 surrounding tokens on each side; every valid
token in the window (the clue token itself excepted) yields a candidate with
confidence scaled by 0.8. -/
def findContextBasedValues (tokens : List STok) (clue : Txt) (fieldType : Txt) : List Cand :=
  tokens.enum.flatMap fun (i, tok) =>
    if substrTest clue tok.text then
      (pySlice tokens.enum (i - 5) (min tokens.length (i + 5 + 1))).filterMap fun (j, cand) =>
        if j ≠ i then
          if isValidFieldValueSmart cand.text fieldType then
            some { val := pyStrip cand.text, conf := cand.confidence * (8/10),
                   method := "コンテキスト(".data ++ clue ++ ")".data,
                   coords := cand.coords, tag := clue }
          else none
        else none
    else []

/-- `SmartFieldExtractor._deduplicate_values` (inner loop with the `seen` set). -/
def dedupGo (seen : List Txt) : List Cand → List Cand
  | [] => []
  | v :: rest =>
    if seen.contains v.val then dedupGo seen rest
    else v :: dedupGo (v.val :: seen) rest

/-- `SmartFieldExtractor._deduplicate_values`: drop every candidate whose value
text already occurred earlier in the list. -/
def deduplicateValues (values : List Cand) : List Cand :=
  dedupGo [] values

/-- Sort key of `unique_values.sort(key=lambda x: x["信頼度"], reverse=True)`:
descending confidence. -/
def candGE (a b : Cand) : Prop := b.conf ≤ a.conf

instance : DecidableRel candGE := fun a b => inferInstanceAs (Decidable (b.conf ≤ a.conf))

instance : IsTotal Cand candGE := ⟨fun a b => le_total b.conf a.conf⟩

instance : IsTrans Cand candGE := ⟨fun _ _ _ h1 h2 => le_trans h2 h1⟩

/-- Python's stable `list.sort(..., reverse=True)` on the confidence key,
realized as stable insertion sort (any stable sort produces this unique
output). -/
def sortCands (l : List Cand) : List Cand :=
  l.insertionSort candGE

/-- Per-field result dict of `_extract_field_by_patterns`. -/
structure FieldResult where
  count : Nat
  best : Option Cand
  all : List Cand
  ftype : Txt
deriving Repr

/-- `SmartFieldExtractor._extract_field_by_patterns`: pattern-match candidates
(confidence from the pattern heuristic), then context-clue candidates, then
dedup, sort by descending confidence, keep the top entry as best and the top
5 as the candidate list. -/
def extractFieldByPatterns (fieldName : Txt) (cfg : FieldConfig)
    (tokens : List STok) (fullText : Txt) : Option FieldResult :=
  let patternCands := cfg.patterns.flatMap fun p =>
    (p.find fullText).map fun (s, e) =>
      let g := pySlice fullText s e
      { val := pyStrip g, conf := calculatePatternConfidence g p.src,
        method := "パターンマッチング".data,
        coords := findCoordinatesForTextSpan tokens s e, tag := p.src }
  let contextCands := cfg.contextClues.flatMap fun clue =>
    findContextBasedValues tokens clue fieldName
  let uniqueValues := sortCands (deduplicateValues (patternCands ++ contextCands))
  if uniqueValues.isEmpty then none
  else some { count := uniqueValues.length, best := uniqueValues.head?,
              all := uniqueValues.take 5, ftype := fieldName }

/-! ## Document model and the smart extraction pipeline -/

/-- Page dimension dict. -/
structure Dim where
  width : ℚ
  height : ℚ
  unit : Txt
deriving DecidableEq, Repr

/-- One page of the engine response. -/
structure SPage where
  tokens : List RawTok
  dim : Option Dim
  detectedLanguages : List Txt
deriving DecidableEq, Repr

/-- The engine response: full recognized text plus pages. -/
structure SDoc where
  text : Txt
  pages : List SPage
deriving DecidableEq, Repr

/-- The whole `field_patterns` table (field name → configuration). -/
abbrev SmartConfig := List (Txt × FieldConfig)

/-- The `文書情報` dict of the smart result. -/
structure SmartInfo where
  processedAt : Txt
  pageCount : Nat
  charCount : Nat
  tokenCount : Nat
deriving Repr

/-- The `統計情報` dict of the smart result. -/
structure SmartStats where
  fieldCount : Nat
  fieldTypes : List Txt
deriving Repr

/-- The successful smart result. -/
structure SmartOk where
  info : SmartInfo
  fields : List (Txt × FieldResult)
  stats : SmartStats

/-- Result of `extract_smart_fields` (`err` is the "No pages found" dict). -/
inductive SmartOut where
  | err
  | ok (r : SmartOk)

/-- `SmartFieldExtractor.extract_smart_fields`; the wall-clock timestamp
`datetime.now().isoformat()` is an explicit input `now`. -/
def extractSmartFields (cfg : SmartConfig) (now : Txt) (doc : SDoc) : SmartOut :=
  match doc.pages with
  | [] => .err
  | page :: _ =>
    let tokens := extractTokenInfo page.tokens doc.text
    let extractedFields := cfg.filterMap fun (fieldName, fieldConfig) =>
      (extractFieldByPatterns fieldName fieldConfig tokens doc.text).map fun r => (fieldName, r)
    .ok { info := { processedAt := now, pageCount := doc.pages.length,
                    charCount := doc.text.length, tokenCount := tokens.length },
          fields := extractedFields,
          stats := { fieldCount := extractedFields.length,
                     fieldTypes := extractedFields.map (·.1) } }

/-- Blank out the timestamp component of a smart result (for stating that
nothing else depends on the clock). -/
def smartEraseTimestamp : SmartOut → SmartOut
  | .err => .err
  | .ok r => .ok { r with info := { r.info with processedAt := [] } }

/-- Blank out the page-count component of a smart result (for stating that
nothing else depends on the pages after the first). -/
def smartErasePageCount : SmartOut → SmartOut
  | .err => .err
  | .ok r => .ok { r with info := { r.info with pageCount := 0 } }

/-! ## FormFieldExtractor -/

/-- One entry of the `form_fields` definition table. -/
structure FormFieldDef where
  keywords : List Txt
  contextKeywords : List Txt
  fieldType : Txt

/-- A normalized rectangle of the `coordinate_fields` table. -/
structure Area where
  xMin : ℚ
  yMin : ℚ
  xMax : ℚ
  yMax : ℚ
deriving DecidableEq, Repr

/-- `FormFieldExtractor._is_valid_field_value` (the `context_keywords`
argument is accepted and, as in the source, unused). -/
def isValidFieldValueForm (text : Txt) (fieldType : Txt) (_contextKeywords : List Txt) : Bool :=
  let t := pyStrip text
  if fieldType = "person_name".data then hasRun jpNameCls 2 t
  else if fieldType = "amount".data then t.any amountClsForm && decide (1 ≤ t.length)
  else if fieldType = "address".data then t.any addressMarkCls || decide (4 ≤ t.length)
  else if fieldType = "phone".data then t.any phoneClsForm && decide (8 ≤ t.length)
  else if fieldType = "date".data then t.any dateCls
  else if fieldType = "company".data then t.any companyMarkCls || decide (3 ≤ t.length)
  else if fieldType = "department".data then t.any deptMarkCls || decide (2 ≤ t.length)
  else if fieldType = "email".data then t.contains '@' && t.contains '.'
  else decide (2 ≤ t.length)

/-- The dict returned by `_extract_field_value_from_context`. -/
structure FoundVal where
  text : Txt
  confidence : ℚ
  coords : Option BBox
  method : Txt
deriving DecidableEq, Repr

/-- The scan of `_extract_field_value_from_context` over its search window:
skip tokens whose stripped text is empty, return the first one passing the
validator. -/
def firstValidTok (fieldType : Txt) (contextKeywords : List Txt) : List STok → Option FoundVal
  | [] => none
  | tok :: rest =>
    let tokenText := pyStrip tok.text
    if tokenText.isEmpty then firstValidTok fieldType contextKeywords rest
    else if isValidFieldValueForm tokenText fieldType contextKeywords then
      some { text := tokenText, confidence := tok.confidence, coords := tok.coords,
             method := fieldType ++ "_pattern_match".data }
    else firstValidTok fieldType contextKeywords rest

/-- `FormFieldExtractor._extract_field_value_from_context` with
`search_range = 5`: reverse search scans `tokens[keyword_idx-5 : keyword_idx]`,
forward search scans `tokens[keyword_idx+1 : min(len(tokens), keyword_idx+5)]`. -/
def extractFieldValueFromContext (tokens : List STok) (keywordIdx : Nat) (fieldType : Txt)
    (contextKeywords : List Txt) (reverseSearch : Bool) : Option FoundVal :=
  let searchTokens :=
    if reverseSearch then pySlice tokens (keywordIdx - 5) keywordIdx
    else pySlice tokens (keywordIdx + 1) (min tokens.length (keywordIdx + 5))
  firstValidTok fieldType contextKeywords searchTokens

/-- One entry of `found_values` in `_extract_single_field`. -/
structure FVal where
  value : Txt
  confidence : ℚ
  coords : Option BBox
  tag : Txt
  method : Txt
deriving DecidableEq, Repr

/-- Python `max(found_values, key=lambda x: x["confidence"])`: the first
element of maximal confidence. -/
def maxByConf : List FVal → Option FVal
  | [] => none
  | v :: rest => some (rest.foldl (fun b x => if b.confidence < x.confidence then x else b) v)

/-- The dict returned by `_extract_single_field`. -/
structure SingleFieldRes where
  fieldType : Txt
  foundCount : Nat
  values : List FVal
  best : Option FVal
deriving DecidableEq, Repr

/-- `FormFieldExtractor._extract_single_field`: keyword matches searched
forward, then context-keyword matches searched backward (the latter skipped
when an equal value text was already collected); best match is the first
candidate of maximal confidence. -/
def extractSingleField (defn : FormFieldDef) (tokens : List STok) : Option SingleFieldRes :=
  let found1 := tokens.enum.foldl (fun acc (i, tok) =>
    defn.keywords.foldl (fun acc kw =>
      if substrTest kw tok.text then
        match extractFieldValueFromContext tokens i defn.fieldType defn.contextKeywords false with
        | some fv => acc ++ [⟨fv.text, fv.confidence, fv.coords, kw, fv.method⟩]
        | none => acc
      else acc) acc) []
  let found := defn.contextKeywords.foldl (fun acc ck =>
    tokens.enum.foldl (fun acc (i, tok) =>
      if substrTest ck tok.text then
        match extractFieldValueFromContext tokens i defn.fieldType [] true with
        | some fv =>
          if acc.any (fun v => v.value = fv.text) then acc
          else acc ++ [⟨fv.text, fv.confidence, fv.coords, ck, fv.method⟩]
        | none => acc
      else acc) acc) found1
  if found.isEmpty then none
  else some { fieldType := defn.fieldType, foundCount := found.length,
              values := found, best := maxByConf found }

/-- Token record stored by `_extract_coordinate_based_fields`. -/
structure CoordTok where
  text : Txt
  confidence : ℚ
  coordinates : Option BBox
deriving DecidableEq, Repr

/-- One entry of the coordinate-field result. -/
structure CoordEntry where
  toks : List CoordTok
  combined : Txt
  area : Area
deriving DecidableEq, Repr

/-- `FormFieldExtractor._extract_coordinate_based_fields`: tokens whose box
center lies inside the area, concatenated in token order; areas collecting no
token are absent. -/
def extractCoordinateBasedFields (coordDefs : List (Txt × Area)) (tokens : List STok) :
    List (Txt × CoordEntry) :=
  coordDefs.filterMap fun (name, area) =>
    let fieldTokens := tokens.filterMap fun t =>
      match t.coords with
      | none => none
      | some c =>
        if decide (area.xMin ≤ c.cx) && decide (c.cx ≤ area.xMax) &&
           decide (area.yMin ≤ c.cy) && decide (c.cy ≤ area.yMax) then
          some (⟨t.text, t.confidence, t.coords⟩ : CoordTok)
        else none
    if fieldTokens.isEmpty then none
    else some (name, { toks := fieldTokens, combined := (fieldTokens.map (·.text)).flatten,
                       area := area })

/-- Entry of the `dates` bucket of `_extract_pattern_based_fields`. -/
structure DateEntry where
  text : Txt
  coords : Option BBox
  confidence : ℚ
  patSrc : Txt
deriving Repr

/-- Entry of the `phone_numbers` bucket. -/
structure PhoneEntry where
  text : Txt
  matched : Txt
  coords : Option BBox
  confidence : ℚ
deriving Repr

/-- Entry of the `numbers` bucket. -/
structure NumEntry where
  text : Txt
  matched : Txt
  coords : Option BBox
  confidence : ℚ
  patSrc : Txt
deriving Repr

/-- The three hard-coded pattern lists of `_extract_pattern_based_fields`
(pattern behaviour supplied by the external regex engine). -/
structure FormPatterns where
  datePatterns : List Pat
  phonePatterns : List Pat
  numberPatterns : List Pat

/-- `FormFieldExtractor._extract_pattern_based_fields`: per token, a date
entry per matching date pattern, a phone entry per phone-pattern match of
length ≥ 4, a number entry per matching number pattern. -/
def extractPatternBasedFields (fp : FormPatterns) (tokens : List STok) :
    List DateEntry × List PhoneEntry × List NumEntry :=
  let dates := tokens.flatMap fun t =>
    fp.datePatterns.filterMap fun p =>
      match (p.find t.text).head? with
      | some _ => some (⟨t.text, t.coords, t.confidence, p.src⟩ : DateEntry)
      | none => none
  let phones := tokens.flatMap fun t =>
    fp.phonePatterns.filterMap fun p =>
      match (p.find t.text).head? with
      | some (s, e) =>
        let g := pySlice t.text s e
        if 4 ≤ g.length then some (⟨t.text, g, t.coords, t.confidence⟩ : PhoneEntry) else none
      | none => none
  let numbers := tokens.flatMap fun t =>
    fp.numberPatterns.filterMap fun p =>
      match (p.find t.text).head? with
      | some (s, e) => some (⟨t.text, pySlice t.text s e, t.coords, t.confidence, p.src⟩ : NumEntry)
      | none => none
  (dates, phones, numbers)

/-- The caller-visible field definitions of `FormFieldExtractor`. -/
structure FormDefs where
  coordinateFields : List (Txt × Area)
  formFields : List (Txt × FormFieldDef)

/-- The `extracted_fields` dict of `process_document_json` (its key spaces —
area names, `structured_fields`, the three buckets — are modelled as separate
components). -/
structure ExtractedFields where
  coordFields : List (Txt × CoordEntry)
  structuredFields : List (Txt × SingleFieldRes)
  dates : List DateEntry
  phones : List PhoneEntry
  numbers : List NumEntry

/-- The `document_info` dict of `process_document_json`. -/
structure FormInfo where
  pageCount : Nat
  width : ℚ
  height : ℚ
  unit : Txt
  detectedLanguages : List Txt
  processedAt : Txt

/-- Successful result of `process_document_json`. -/
structure FormOk where
  info : FormInfo
  fields : ExtractedFields
  rawTokens : List STok

/-- Result of `process_document_json` (`err` is the "No pages found" dict). -/
inductive FormOut where
  | err
  | ok (r : FormOk)

/-- `FormFieldExtractor._extract_structured_form_fields` (fields whose
extraction returns `None` are absent). -/
def extractStructuredFormFields (formFields : List (Txt × FormFieldDef)) (tokens : List STok) :
    List (Txt × SingleFieldRes) :=
  formFields.filterMap fun (name, defn) =>
    (extractSingleField defn tokens).map fun r => (name, r)

/-- `FormFieldExtractor.process_document_json`: first page only; the
timestamp is the explicit input `now`. -/
def formProcessDocument (fp : FormPatterns) (defs : FormDefs) (now : Txt) (doc : SDoc) :
    FormOut :=
  match doc.pages with
  | [] => .err
  | page :: _ =>
    let tokens := extractTokenInfo page.tokens doc.text
    let buckets := extractPatternBasedFields fp tokens
    .ok { info := { pageCount := doc.pages.length,
                    width := (page.dim.map (·.width)).getD 1,
                    height := (page.dim.map (·.height)).getD 1,
                    unit := (page.dim.map (·.unit)).getD "pixels".data,
                    detectedLanguages := page.detectedLanguages,
                    processedAt := now },
          fields := { coordFields := extractCoordinateBasedFields defs.coordinateFields tokens,
                      structuredFields := extractStructuredFormFields defs.formFields tokens,
                      dates := buckets.1, phones := buckets.2.1, numbers := buckets.2.2 },
          rawTokens := tokens }

/-- Blank out the page-count component of a form result. -/
def formErasePageCount : FormOut → FormOut
  | .err => .err
  | .ok r => .ok { r with info := { r.info with pageCount := 0 } }

/-! ## Flat-text parsers (`data_parser.py`) -/

/-- Field definition of `data_parser.Field`.  A key pattern is modelled as
its `re.search` behaviour: `none` for no match, `some e` for a first match
ending at character index `e`. -/
structure FieldDef where
  key : Txt
  patterns : List (Txt → Option Nat)
  required : Bool
  multiline : Bool

/-- `data_parser.ParseResult`. -/
structure ParseOut where
  data : List (Txt × Txt)
  missingFields : List Txt
  warnings : List Txt
deriving DecidableEq, Repr

/-- The warning for empty input text. -/
def emptyInputWarn : Txt := "入力テキストが空です".data

/-- The warning for a required field the sequential parser did not find. -/
def missingFieldWarn (key : Txt) : Txt :=
  "必須フィールド \x27".data ++ key ++ "\x27 が見つかりませんでした".data

/-- `SequentialKeyParser._is_field_key`: the line matches some pattern of
some field. -/
def isFieldKey (line : Txt) (fields : List FieldDef) : Bool :=
  fields.any fun f => f.patterns.any fun p => (p line).isSome

/-- The continuation-line loop of `SequentialKeyParser._extract_field_value`,
applied to the already-sliced window of subsequent lines: strip each line,
stop at the first blank line or at the first line matching any field key. -/
def collectCont (allFields : List FieldDef) : List Txt → List Txt
  | [] => []
  | l :: rest =>
    let nextLine := pyStrip l
    if nextLine.isEmpty then []
    else if isFieldKey nextLine allFields then []
    else nextLine :: collectCont allFields rest

/-- The per-(pattern, line) body of `SequentialKeyParser._extract_field_value`. -/
def seqTryLine (maxValueLines : Nat) (field : FieldDef) (allFields : List FieldDef)
    (lines : List Txt) (i : Nat) (line : Txt) (p : Txt → Option Nat) : Option Txt :=
  match p line with
  | none => none
  | some e =>
    let remaining := pyStrip (line.drop e)
    if field.multiline || remaining.isEmpty then
      let valueLines := (if remaining.isEmpty then [] else [remaining]) ++
        collectCont allFields (pySlice lines (i + 1) (min (i + maxValueLines + 1) lines.length))
      let value := pyStrip (List.intercalate [' '] valueLines)
      if value.isEmpty then none else some value
    else some remaining

/-- `SequentialKeyParser._extract_field_value`: try every pattern against
every line in order, returning the first extracted value (the warning slot of
the returned pair is constantly `None` in the source). -/
def seqExtractFieldValue (maxValueLines : Nat) (lines : List Txt) (field : FieldDef)
    (allFields : List FieldDef) : Option Txt × Option Txt :=
  (field.patterns.findSome? fun p =>
    lines.enum.findSome? fun (i, line) => seqTryLine maxValueLines field allFields lines i line p,
   none)

/-- `SequentialKeyParser.parse` (`max_value_lines` defaults to 10 at call
sites using the default constructor). -/
def seqParse (maxValueLines : Nat) (text : Txt) (fields : List FieldDef) : ParseOut :=
  if text.isEmpty then
    { data := [], missingFields := (fields.filter (·.required)).map (·.key),
      warnings := [emptyInputWarn] }
  else
    let lines := splitOnNl text
    let acc := fields.foldl (fun acc field =>
      let value := (seqExtractFieldValue maxValueLines lines field fields).1
      if pyTruthy value then (dictSet acc.1 field.key (value.getD []), acc.2)
      else if field.required then (acc.1, acc.2 ++ [missingFieldWarn field.key])
      else acc) (([], []) : List (Txt × Txt) × List Txt)
    { data := acc.1,
      missingFields := (fields.filter fun f => f.required && (dictGet acc.1 f.key).isNone).map (·.key),
      warnings := acc.2 }

/-- `KeyValuePairParser.parse`.  The single generic `label[:：]value`
extraction `re.findall(r'([^:\n]+)[：:]\s*([^\n]+)', text)` is the external
regex engine's work and enters as the explicit input `findAll`. -/
def kvParse (findAll : Txt → List (Txt × Txt)) (text : Txt) (fields : List FieldDef) : ParseOut :=
  if text.isEmpty then
    { data := [], missingFields := (fields.filter (·.required)).map (·.key),
      warnings := [emptyInputWarn] }
  else
    let data := (findAll text).foldl (fun d (keyValue : Txt × Txt) =>
      let keyText := pyStrip keyValue.1
      let value := pyStrip keyValue.2
      fields.foldl (fun d field =>
        if field.patterns.any (fun p => (p keyText).isSome) then dictSet d field.key value
        else d) d) []
    let missingFields := (fields.filter fun f => f.required && (dictGet data f.key).isNone).map (·.key)
    { data := data, missingFields := missingFields,
      warnings :=
        if missingFields.isEmpty then []
        else ["必須フィールドが見つかりません: ".data ++ List.intercalate ", ".data missingFields] }

/-! ## Concrete search functions for individual regular expressions -/

/-- Character class `[：:\s]` of the default key patterns. -/
def kvSepCls (c : Char) : Bool := c = '：' || c = ':' || isPySpace c

/-- `re.search` for a pattern of the shape `LITERAL[cls]*`: leftmost
occurrence of the literal, star matched greedily; returns the match end.
`i` is the index of the first character of `s` in the full line. -/
def searchLitClassStar (lit : Txt) (cls : Char → Bool) (i : Nat) : Txt → Option Nat
  | [] => if lit.isPrefixOf ([] : Txt) then some (i + lit.length) else none
  | c :: rest =>
    if lit.isPrefixOf (c :: rest) then
      some (i + lit.length + leadRun cls ((c :: rest).drop lit.length))
    else searchLitClassStar lit cls (i + 1) rest

/-- `re.search` of a default key pattern `LITERAL[：:\s]*` against a line. -/
def searchKeyPat (lit : Txt) (line : Txt) : Option Nat :=
  searchLitClassStar lit kvSepCls 0 line

/-! ## Definitions modelled from the spec (for comparison against the code) -/

/-- Modelled from the spec: "search a fixed window of the next N (default 5)
tokens" — the window of the forward keyword-context search as the spec (and
claim C2) states it. -/
def specForwardWindow (n : Nat) (tokens : List STok) (keywordIdx : Nat) : List STok :=
  (tokens.drop (keywordIdx + 1)).take n

/-- Modelled from the spec: the candidate the spec's forward search would
emit — the first token of the next-5-token window that passes the validator. -/
def specForwardCandidate (tokens : List STok) (keywordIdx : Nat) (fieldType : Txt)
    (contextKeywords : List Txt) : Option FoundVal :=
  firstValidTok fieldType contextKeywords (specForwardWindow 5 tokens keywordIdx)

/-- Modelled from the spec: "phone: contains a digit/hyphen/parenthesis run
of length ≥8" — the acceptance condition claim C4 states, over the form
extractor's phone character class. -/
def specPhoneRun (s : Txt) : Bool := hasRun phoneClsForm 8 s

/-! ## Concrete inputs used by the scenario claims and witnesses -/

/-- Demonstration token constructor (span and geometry irrelevant). -/
def mkTok (i : Nat) (t : Txt) (c : ℚ) : STok := ⟨i, t, c, 0, 0, none⟩

/-- Duplicate-value candidate arriving first with the lower confidence 0.7. -/
def demoDupCandLo : Cand := ⟨"東京都渋谷区".data, 7/10, "コンテキスト(住所)".data, none, "住所".data⟩

/-- Duplicate-value candidate arriving second with the higher confidence 0.9. -/
def demoDupCandHi : Cand := ⟨"東京都渋谷区".data, 9/10, "パターンマッチング".data, none, "p".data⟩

/-- A candidate with a different value text and confidence 0.5. -/
def demoOtherCand : Cand := ⟨"大阪市".data, 5/10, "パターンマッチング".data, none, "p".data⟩

/-- Six tokens: keyword token at index 0, the only validator-passing token at
index 5 (the fifth token after the keyword). -/
def demoWindowToks : List STok :=
  [mkTok 0 "氏名".data 1, mkTok 1 "1".data (1/2), mkTok 2 "2".data (1/2),
   mkTok 3 "3".data (1/2), mkTok 4 "4".data (1/2), mkTok 5 "ab".data (3/4)]

/-- A name token of confidence 0.9 directly before a context keyword token. -/
def demoReverseToks : List STok := [mkTok 0 "山田".data (9/10), mkTok 1 "様".data 1]

/-- A clue-bearing token followed by a valid name token of confidence 0.9. -/
def demoClueToks : List STok := [mkTok 0 "氏名:".data (1/2), mkTok 1 "山田".data (9/10)]

/-- The candidate the smart context search emits from `demoClueToks`. -/
def demoClueCand : Cand :=
  ⟨"山田".data, (9/10) * (8/10), "コンテキスト(".data ++ "氏名".data ++ ")".data, none, "氏名".data⟩

/-- The multiline field `件名` of scenario 5 with its default key pattern. -/
def kenmeiField : FieldDef := ⟨"件名".data, [searchKeyPat "件名".data], false, true⟩

/-- The field `氏名` with its default key pattern. -/
def shimeiField : FieldDef := ⟨"氏名".data, [searchKeyPat "氏名".data], false, false⟩

/-- The input text of scenario 5. -/
def demoSeqText : Txt := "件名: 請求書\n\n氏名: 田中".data

/-- A raw token spanning the first two characters. -/
def demoRawTok : RawTok := ⟨[(0, 2)], 9/10, []⟩

/-- A one-token page. -/
def demoPage : SPage := ⟨[demoRawTok], none, []⟩

/-- A trailing page differing from `demoPage`. -/
def demoExtraPage : SPage := ⟨[], none, []⟩

/-- One-page document. -/
def demoDoc1 : SDoc := ⟨"東京".data, [demoPage]⟩

/-- Same text and first page as `demoDoc1`, one extra page. -/
def demoDoc2 : SDoc := ⟨"東京".data, [demoPage, demoExtraPage]⟩

/-- A key pattern matching every label. -/
def patAlwaysMatch : Txt → Option Nat := fun _ => some 0

/-- Two distinct field definitions whose patterns both match any label. -/
def demoFieldA : FieldDef := ⟨"a".data, [patAlwaysMatch], false, false⟩

/-- Second field definition for the shared-label demonstration. -/
def demoFieldB : FieldDef := ⟨"b".data, [patAlwaysMatch], false, false⟩

/-- A `findall` result consisting of one extracted label/value pair. -/
def demoFindAll : Txt → List (Txt × Txt) := fun _ => [("住所".data, "東京都".data)]

/-- A pattern whose engine reports one match spanning the whole demo text. -/
def demoAmountPat : Pat := ⟨"p".data, fun _ => [(0, 2)]⟩

/-- A one-pattern field configuration. -/
def demoAmountCfg : FieldConfig := ⟨[demoAmountPat], []⟩

/-- Demo full text for the pattern-confidence witness. -/
def demoAmountText : Txt := "12".data

/-- The candidate `extractFieldByPatterns` produces from `demoAmountCfg`. -/
def demoAmountCand : Cand :=
  ⟨"12".data, calculatePatternConfidence "12".data "p".data, "パターンマッチング".data,
   none, "p".data⟩

/-- Page count reported by a smart result (0 for the error dict). -/
def smartPageCount : SmartOut → Nat
  | .err => 0
  | .ok r => r.info.pageCount

/-- Page count reported by a form result (0 for the error dict). -/
def formPageCount : FormOut → Nat
  | .err => 0
  | .ok r => r.info.pageCount

/-! ## Helper lemmas -/

theorem dictGet_dictSet_self (d : List (Txt × α)) (k : Txt) (v : α) :
    dictGet (dictSet d k v) k = some v := by
  induction d with
  | nil => simp [dictSet, dictGet]
  | cons q rest ih =>
    obtain ⟨k', v'⟩ := q
    by_cases h : k' = k
    · simp [dictSet, dictGet, h]
    · simp [dictSet, dictGet, h, ih]

theorem dictGet_dictSet_ne (d : List (Txt × α)) {k k' : Txt} (v : α) (h : k ≠ k') :
    dictGet (dictSet d k v) k' = dictGet d k' := by
  induction d with
  | nil => simp [dictSet, dictGet, h]
  | cons q rest ih =>
    obtain ⟨k0, v0⟩ := q
    by_cases h0 : k0 = k
    · subst h0
      simp [dictSet, dictGet, h]
    · simp [dictSet, dictGet, h0, ih]

theorem dictSet_all_val {v : α} : ∀ (d : List (Txt × α)) (k : Txt),
    (∀ q ∈ d, q.2 = v) → ∀ q ∈ dictSet d k v, q.2 = v := by
  intro d
  induction d with
  | nil => intro k _ q hq; simp [dictSet] at hq; simp [hq]
  | cons p rest ih =>
    intro k hall q hq
    obtain ⟨k0, v0⟩ := p
    by_cases h0 : k0 = k
    · simp [dictSet, h0] at hq
      rcases hq with hq | hq
      · simp [hq]
      · exact hall q (by simp [hq])
    · simp [dictSet, h0] at hq
      rcases hq with hq | hq
      · exact hall q (by simp [hq])
      · exact ih k (fun q hq => hall q (by simp [hq])) q hq

theorem dedupGo_sub {c : Cand} : ∀ {l : List Cand} {seen : List Txt},
    c ∈ dedupGo seen l → c ∈ l := by
  intro l
  induction l with
  | nil => intro seen h; simp [dedupGo] at h
  | cons v rest ih =>
    intro seen h
    unfold dedupGo at h
    split at h
    · exact List.mem_cons_of_mem _ (ih h)
    · rcases List.mem_cons.1 h with h | h
      · simp [h]
      · exact List.mem_cons_of_mem _ (ih h)

theorem dedupGo_filter_of_seen (t : Txt) : ∀ (l : List Cand) (seen : List Txt), t ∈ seen →
    (dedupGo seen l).filter (fun c => decide (c.val = t)) = [] := by
  intro l
  induction l with
  | nil => intro seen _; simp [dedupGo]
  | cons v rest ih =>
    intro seen ht
    unfold dedupGo
    split
    · exact ih seen ht
    · next hv =>
      have hvt : ¬ (v.val = t) := by
        intro he
        exact hv (by rw [he]; exact List.elem_iff.2 ht)
      simp only [List.filter_cons, decide_eq_true_eq]
      rw [if_neg (by simpa using hvt)]
      exact ih _ (List.mem_cons_of_mem _ ht)

theorem dedupGo_filter_of_not_seen (t : Txt) : ∀ (l : List Cand) (seen : List Txt), t ∉ seen →
    (dedupGo seen l).filter (fun c => decide (c.val = t)) =
      (l.filter (fun c => decide (c.val = t))).take 1 := by
  intro l
  induction l with
  | nil => intro seen _; simp [dedupGo]
  | cons v rest ih =>
    intro seen ht
    unfold dedupGo
    by_cases hv : v.val = t
    · have hseen : ¬ v.val ∈ seen := by rw [hv]; exact ht
      rw [if_neg (by simpa [List.elem_iff] using hseen)]
      simp only [List.filter_cons, decide_eq_true_eq]
      rw [if_pos (by simpa using hv)]
      rw [dedupGo_filter_of_seen t rest _ (by rw [hv]; exact List.mem_cons_self _ _), if_pos hv]
      rfl
    · by_cases hseen : v.val ∈ seen
      · rw [if_pos (by simpa [List.elem_iff] using hseen)]
        simp only [List.filter_cons, decide_eq_true_eq]
        rw [if_neg hv]
        exact ih seen ht
      · rw [if_neg (by simpa [List.elem_iff] using hseen)]
        simp only [List.filter_cons, decide_eq_true_eq]
        simp only [if_neg hv]
        refine ih _ ?_
        intro hmem
        rcases List.mem_cons.1 hmem with h | h
        · exact hv h.symm
        · exact ht h

theorem sortCands_perm (l : List Cand) : (sortCands l).Perm l :=
  List.perm_insertionSort candGE l

theorem mem_sortCands {c : Cand} {l : List Cand} : c ∈ sortCands l ↔ c ∈ l :=
  List.mem_insertionSort candGE

theorem sortCands_sorted (l : List Cand) : List.Sorted candGE (sortCands l) :=
  List.sorted_insertionSort candGE l

theorem firstValidTok_conf (ft : Txt) (cks : List Txt) :
    ∀ (l : List STok) (r : FoundVal), firstValidTok ft cks l = some r →
      ∃ t ∈ l, r.confidence = t.confidence := by
  intro l
  induction l with
  | nil => intro r h; simp [firstValidTok] at h
  | cons tok rest ih =>
    intro r h
    simp only [firstValidTok] at h
    split at h
    · obtain ⟨t, ht, he⟩ := ih r h
      exact ⟨t, List.mem_cons_of_mem _ ht, he⟩
    · split at h
      · obtain rfl := Option.some.inj h
        exact ⟨tok, by simp, rfl⟩
      · obtain ⟨t, ht, he⟩ := ih r h
        exact ⟨t, List.mem_cons_of_mem _ ht, he⟩

theorem leadRun_stripRight {cls ws : Char → Bool} (h : ∀ c, ws c = true → cls c = false) :
    ∀ l : Txt, leadRun cls (stripRight ws l) = leadRun cls l := by
  intro l
  induction l with
  | nil => rfl
  | cons c cs ih =>
    unfold stripRight
    by_cases hb : (stripRight ws cs).isEmpty ∧ ws c
    · rw [if_pos (by simp [hb.1, hb.2])]
      have hc : cls c = false := h c hb.2
      simp [leadRun, hc]
    · rw [if_neg (by intro hx; rw [Bool.and_eq_true] at hx; exact hb hx)]
      simp [leadRun, ih]

theorem hasRun_stripRight {cls ws : Char → Bool} {k : Nat} (hk : 1 ≤ k)
    (h : ∀ c, ws c = true → cls c = false) :
    ∀ l : Txt, hasRun cls k (stripRight ws l) = hasRun cls k l := by
  intro l
  induction l with
  | nil => rfl
  | cons c cs ih =>
    unfold stripRight
    by_cases hb : (stripRight ws cs).isEmpty ∧ ws c
    · rw [if_pos (by simp [hb.1, hb.2])]
      have hc : cls c = false := h c hb.2
      have hcs : hasRun cls k cs = false := by
        rw [← ih]
        rw [List.isEmpty_iff.1 hb.1]
        rfl
      simp [hasRun, leadRun, hc, hcs]
      omega
    · rw [if_neg (by intro hx; rw [Bool.and_eq_true] at hx; exact hb hx)]
      show (decide (k ≤ leadRun cls (c :: stripRight ws cs)) || hasRun cls k (stripRight ws cs)) = _
      rw [ih]
      have : leadRun cls (c :: stripRight ws cs) = leadRun cls (c :: cs) := by
        simp [leadRun, leadRun_stripRight h]
      rw [this]
      rfl

theorem hasRun_dropWhile {cls ws : Char → Bool} {k : Nat} (hk : 1 ≤ k)
    (h : ∀ c, ws c = true → cls c = false) :
    ∀ l : Txt, hasRun cls k (l.dropWhile ws) = hasRun cls k l := by
  intro l
  induction l with
  | nil => rfl
  | cons c cs ih =>
    by_cases hc : ws c
    · rw [List.dropWhile_cons_of_pos hc, ih]
      have hcl : cls c = false := h c hc
      show _ = (decide (k ≤ leadRun cls (c :: cs)) || hasRun cls k cs)
      simp [leadRun, hcl]
      omega
    · rw [List.dropWhile_cons_of_neg hc]

theorem hasRun_pyStrip {cls : Char → Bool} {k : Nat} (hk : 1 ≤ k)
    (h : ∀ c, isPySpace c = true → cls c = false) (s : Txt) :
    hasRun cls k (pyStrip s) = hasRun cls k s := by
  unfold pyStrip
  rw [hasRun_stripRight hk h, hasRun_dropWhile hk h]

theorem phoneClsSmart_not_space : ∀ c, isPySpace c = true → phoneClsSmart c = false := by
  intro c hc
  have hm : c ∈ ([' ', '\t', '\n', '\x0d', '\x0b', '\x0c', '　'] : List Char) := by
    simp only [isPySpace, Bool.or_eq_true, decide_eq_true_eq] at hc
    simp only [List.mem_cons, List.mem_singleton]
    tauto
  fin_cases hm <;> decide

theorem forward_slice_eq (tokens : List STok) (k : Nat) :
    pySlice tokens (k + 1) (min tokens.length (k + 5)) = (tokens.drop (k + 1)).take 4 := by
  unfold pySlice
  rw [List.drop_take, List.take_eq_take]
  simp only [List.length_drop]
  omega

theorem collectCont_eq_takeWhile (allFields : List FieldDef) :
    ∀ ls : List Txt, collectCont allFields ls =
      (ls.map pyStrip).takeWhile (fun l => !l.isEmpty && !isFieldKey l allFields) := by
  intro ls
  induction ls with
  | nil => rfl
  | cons l rest ih =>
    show (if (pyStrip l).isEmpty = true then [] else if isFieldKey (pyStrip l) allFields = true
          then [] else pyStrip l :: collectCont allFields rest) = _
    rw [List.map_cons, List.takeWhile_cons]
    by_cases h1 : (pyStrip l).isEmpty <;> by_cases h2 : isFieldKey (pyStrip l) allFields <;>
      simp [h1, h2, ih]

theorem collectCont_length_le (allFields : List FieldDef) :
    ∀ ls : List Txt, (collectCont allFields ls).length ≤ ls.length := by
  intro ls
  induction ls with
  | nil => simp [collectCont]
  | cons l rest ih =>
    show (if (pyStrip l).isEmpty = true then [] else if isFieldKey (pyStrip l) allFields = true
          then [] else pyStrip l :: collectCont allFields rest).length ≤ _
    by_cases h1 : (pyStrip l).isEmpty <;> by_cases h2 : isFieldKey (pyStrip l) allFields <;>
      simp [h1, h2] <;> omega

theorem calculatePatternConfidence_bounds (t p : Txt) :
    1/10 ≤ calculatePatternConfidence t p ∧ calculatePatternConfidence t p ≤ 1 := by
  unfold calculatePatternConfidence
  exact ⟨le_min (by norm_num) (le_max_left _ _), min_le_left _ _⟩

theorem findContextBasedValues_conf (tokens : List STok) (clue fieldType : Txt) :
    ∀ c ∈ findContextBasedValues tokens clue fieldType,
      ∃ t ∈ tokens, c.conf = t.confidence * (8/10) := by
  intro c hc
  unfold findContextBasedValues at hc
  rw [List.mem_flatMap] at hc
  obtain ⟨⟨i, tok⟩, _, hc⟩ := hc
  dsimp only at hc
  split at hc
  · rw [List.mem_filterMap] at hc
    obtain ⟨⟨j, cand⟩, hj, heq⟩ := hc
    have hcand : cand ∈ tokens := by
      have h1 : (j, cand) ∈ tokens.enum := by
        have := List.mem_of_mem_take (List.mem_of_mem_drop hj)
        exact this
      obtain ⟨hlt, he⟩ := List.mem_enum h1
      rw [he]
      exact List.getElem_mem hlt
    refine ⟨cand, hcand, ?_⟩
    split at heq
    · split at heq
      · obtain rfl := Option.some.inj heq
        rfl
      · exact absurd heq (by simp)
    · exact absurd heq (by simp)
  · exact absurd hc (by simp)

theorem kvFold_preserve (v : Txt) (cond : FieldDef → Bool) :
    ∀ (fields : List FieldDef) (d : List (Txt × Txt)) (k : Txt),
      (∀ q ∈ d, q.2 = v) → dictGet d k = some v →
      dictGet (fields.foldl (fun d f => if cond f then dictSet d f.key v else d) d) k = some v := by
  intro fields
  induction fields with
  | nil => intro d k _ hk; simpa using hk
  | cons g rest ih =>
    intro d k hall hk
    rw [List.foldl_cons]
    by_cases hg : cond g
    · rw [if_pos hg]
      refine ih _ _ (dictSet_all_val d g.key hall) ?_
      by_cases he : g.key = k
      · rw [he, dictGet_dictSet_self]
      · rw [dictGet_dictSet_ne _ _ he, hk]
    · rw [if_neg hg]
      exact ih _ _ hall hk

theorem kvFold_get (v : Txt) (cond : FieldDef → Bool) :
    ∀ (fields : List FieldDef) (d : List (Txt × Txt)),
      (∀ q ∈ d, q.2 = v) →
      ∀ f ∈ fields, cond f = true →
        dictGet (fields.foldl (fun d f => if cond f then dictSet d f.key v else d) d) f.key
          = some v := by
  intro fields
  induction fields with
  | nil => intro d _ f hf; exact absurd hf (List.not_mem_nil f)
  | cons g rest ih =>
    intro d hall f hf hcond
    rw [List.foldl_cons]
    rcases List.mem_cons.1 hf with rfl | hf
    · rw [if_pos hcond]
      exact kvFold_preserve v cond rest _ _ (dictSet_all_val d f.key hall)
        (dictGet_dictSet_self d f.key v)
    · by_cases hg : cond g
      · rw [if_pos hg]
        exact ih _ (dictSet_all_val d g.key hall) f hf hcond
      · rw [if_neg hg]
        exact ih _ hall f hf hcond

/-! ## Claims -/

/-- C1 counterexample: a candidate list containing two candidates with value
text `東京都渋谷区` and confidences 0.7 (arriving first) and 0.9 (arriving
second).  The aggregation of `_extract_field_by_patterns` (dedup, then sort)
keeps exactly one entry with that value, but it carries confidence 0.7, not
the higher 0.9 the claim requires for either order of arrival. -/
theorem C1_counterexample :
    sortCands (deduplicateValues [demoDupCandLo, demoDupCandHi]) = [demoDupCandLo] ∧
    demoDupCandLo.conf = 7/10 ∧ ((7/10 : ℚ) ≠ 9/10) := by
  refine ⟨by rfl, by rfl, by norm_num⟩

/-- C1 (amended): deduplication keeps, for each value text, exactly the first
occurrence — so the surviving entry carries the first-arriving confidence,
not necessarily the higher one — and the best match (head of the sorted
survivors) has maximal confidence among the survivors. -/
theorem C1_dedup_first_occurrence :
    (∀ (vals : List Cand) (t : Txt),
      (sortCands (deduplicateValues vals)).filter (fun c => decide (c.val = t)) =
        (vals.filter (fun c => decide (c.val = t))).take 1) ∧
    (∀ (vals : List Cand) (b : Cand),
      (sortCands (deduplicateValues vals)).head? = some b →
      ∀ c ∈ sortCands (deduplicateValues vals), c.conf ≤ b.conf) := by
  constructor
  · intro vals t
    have hperm : ((sortCands (deduplicateValues vals)).filter
        (fun c => decide (c.val = t))).Perm
        ((deduplicateValues vals).filter (fun c => decide (c.val = t))) :=
      (sortCands_perm (deduplicateValues vals)).filter _
    have hd : (deduplicateValues vals).filter (fun c => decide (c.val = t)) =
        (vals.filter (fun c => decide (c.val = t))).take 1 :=
      dedupGo_filter_of_not_seen t vals [] (List.not_mem_nil t)
    rw [hd] at hperm
    rcases htake : (vals.filter (fun c => decide (c.val = t))).take 1 with _ | ⟨x, rest⟩
    · rw [htake] at hperm ⊢
      exact List.perm_nil.1 hperm
    · have hr : rest = [] := by
        have := congrArg List.length htake
        simp only [List.length_take] at this
        cases rest with
        | nil => rfl
        | cons y ys => simp at this; omega
      subst hr
      rw [htake] at hperm ⊢
      exact List.perm_singleton.1 hperm
  · intro vals b hb c hc
    have hs := sortCands_sorted (deduplicateValues vals)
    rcases hl : sortCands (deduplicateValues vals) with _ | ⟨x, rest⟩
    · rw [hl] at hb; simp at hb
    · rw [hl] at hb
      obtain rfl : x = b := by simpa using hb
      rw [hl] at hs hc
      rcases List.mem_cons.1 hc with rfl | hc
      · exact le_refl _
      · exact List.rel_of_sorted_cons hs c hc

/-- C1 witness: with the higher-confidence duplicate arriving first, the one
surviving `東京都渋谷区` entry is that candidate (confidence 0.9), and the
best match dominates the other surviving candidate. -/
theorem C1_dedup_first_occurrence_witness :
    (sortCands (deduplicateValues [demoDupCandHi, demoDupCandLo])).filter
      (fun c => decide (c.val = "東京都渋谷区".data)) = [demoDupCandHi] ∧
    demoOtherCand.conf ≤ demoDupCandHi.conf := by
  constructor
  · rw [C1_dedup_first_occurrence.1 [demoDupCandHi, demoDupCandLo] "東京都渋谷区".data]
    rfl
  · refine C1_dedup_first_occurrence.2 [demoOtherCand, demoDupCandHi] demoDupCandHi ?_
      demoOtherCand ?_ <;>
      norm_num [sortCands, List.insertionSort, List.orderedInsert, deduplicateValues,
        dedupGo, candGE, demoDupCandHi, demoOtherCand]

/-- C2 counterexample: six tokens with the keyword at index 0 and the only
validator-passing token at index 5.  The claim's window (the next 5 tokens)
contains that token, so the claimed behaviour emits it; the code's forward
search (`tokens[1 : min(len, 5)]`, i.e. the next 4 tokens) emits nothing. -/
theorem C2_counterexample :
    extractFieldValueFromContext demoWindowToks 0 "person_name".data [] false = none ∧
    (specForwardCandidate demoWindowToks 0 "person_name".data []).map FoundVal.text =
      some "ab".data := by
  refine ⟨by rfl, by rfl⟩

/-- C2 (amended): the forward search window of
`_extract_field_value_from_context` consists of the next 4 tokens after the
keyword token (indices k+1 … k+4, truncated at the end of the list), and the
emitted candidate is the first token of that window whose stripped text is
nonempty and passes the field's validator. -/
theorem C2_forward_window_four (tokens : List STok) (k : Nat) (fieldType : Txt)
    (contextKeywords : List Txt) :
    extractFieldValueFromContext tokens k fieldType contextKeywords false =
      firstValidTok fieldType contextKeywords ((tokens.drop (k + 1)).take 4) := by
  unfold extractFieldValueFromContext
  rw [if_neg (by simp)]
  rw [forward_slice_eq]

/-- C3 counterexample: a reverse-searched context-keyword match in
`FormFieldExtractor` returns the found token's confidence 0.9 unreduced,
not 0.9 × 0.8 as the claim requires. -/
theorem C3_counterexample :
    (extractFieldValueFromContext demoReverseToks 1 "person_name".data [] true).map
      FoundVal.confidence = some (9/10) ∧ ((9/10 : ℚ) ≠ (9/10) * (8/10)) := by
  refine ⟨by rfl, by norm_num⟩

/-- C3 (amended): in `SmartFieldExtractor` every context-clue candidate (the
search is a symmetric ±5-token window, not reverse-only) carries the found
token's confidence × 0.8; in `FormFieldExtractor` every candidate returned by
`_extract_field_value_from_context` — keyword or reverse-searched context
match alike — carries the found token's confidence unreduced. -/
theorem C3_confidence_provenance :
    (∀ (tokens : List STok) (clue fieldType : Txt),
      ∀ c ∈ findContextBasedValues tokens clue fieldType,
        ∃ t ∈ tokens, c.conf = t.confidence * (8/10)) ∧
    (∀ (tokens : List STok) (k : Nat) (fieldType : Txt) (cks : List Txt) (rev : Bool)
      (r : FoundVal), extractFieldValueFromContext tokens k fieldType cks rev = some r →
        ∃ t ∈ tokens, r.confidence = t.confidence) := by
  constructor
  · exact findContextBasedValues_conf
  · intro tokens k fieldType cks rev r h
    unfold extractFieldValueFromContext at h
    obtain ⟨t, ht, he⟩ := firstValidTok_conf fieldType cks _ r h
    refine ⟨t, ?_, he⟩
    split at ht <;>
      · have := List.mem_of_mem_drop ht
        exact List.mem_of_mem_take this

/-- C3 witness: the smart context search scales 0.9 to 0.72 for the token at
index 1 of `demoClueToks`; the form reverse search returns 0.9 unreduced for
the token at index 0 of `demoReverseToks`. -/
theorem C3_confidence_provenance_witness :
    (∃ t ∈ demoClueToks, demoClueCand.conf = t.confidence * (8/10)) ∧
    (∃ t ∈ demoReverseToks,
      (FoundVal.mk "山田".data (9/10) none "person_name_pattern_match".data).confidence =
        t.confidence) := by
  constructor
  · exact C3_confidence_provenance.1 demoClueToks "氏名".data "氏名".data demoClueCand
      (List.mem_singleton.2 rfl)
  · exact C3_confidence_provenance.2 demoReverseToks 1 "person_name".data [] true
      (FoundVal.mk "山田".data (9/10) none "person_name_pattern_match".data) (by rfl)

/-- C4 counterexample: the string `abcdefg1` has no digit/hyphen/parenthesis
run of length ≥ 8 (its only class character is the final digit), yet the form
extractor's phone validator accepts it, because that validator only requires
one class character somewhere plus total length ≥ 8. -/
theorem C4_counterexample :
    isValidFieldValueForm "abcdefg1".data "phone".data [] = true ∧
    specPhoneRun "abcdefg1".data = false := by
  refine ⟨by rfl, by rfl⟩

/-- C4 (amended): the smart extractor's phone validator accepts exactly the
strings containing a digit/hyphen/parenthesis run of length ≥ 8; the form
extractor's phone validator instead accepts exactly the strings that contain
at least one such character and whose stripped length is ≥ 8. -/
theorem C4_phone_validators :
    (∀ s : Txt, isValidFieldValueSmart s "電話番号".data = hasRun phoneClsSmart 8 s) ∧
    (∀ (s : Txt) (cks : List Txt), isValidFieldValueForm s "phone".data cks =
      ((pyStrip s).any phoneClsForm && decide (8 ≤ (pyStrip s).length))) := by
  constructor
  · intro s
    rw [← hasRun_pyStrip (by norm_num) phoneClsSmart_not_space s]
    dsimp only [isValidFieldValueSmart]
    by_cases h : (pyStrip s).length < 1
    · rw [if_pos h, show pyStrip s = [] from List.eq_nil_of_length_eq_zero (by omega)]
      rfl
    · rw [if_neg h]
      rfl
  · intro s cks
    rfl

/-- C5: on empty input text both flat-text parsers return an empty field map,
report exactly the keys of the required fields as missing, and emit exactly
the single input-is-empty warning; the key-value parser's result does not
depend on the regex engine (`findAll`), so no matching is performed. -/
theorem C5_empty_input (maxValueLines : Nat) (findAll : Txt → List (Txt × Txt))
    (fields : List FieldDef) :
    seqParse maxValueLines [] fields =
      ⟨[], (fields.filter (·.required)).map (·.key), [emptyInputWarn]⟩ ∧
    kvParse findAll [] fields =
      ⟨[], (fields.filter (·.required)).map (·.key), [emptyInputWarn]⟩ :=
  ⟨rfl, rfl⟩

/-- C6: the continuation-line collection of the sequential parser stops at
the first blank line or first line matching any field's key pattern
(takeWhile over the stripped window), appends at most `max_value_lines`
lines, and on scenario 5's text the multiline field `件名` extracts exactly
`請求書`. -/
theorem C6_multiline_collection :
    (∀ (allFields : List FieldDef) (ls : List Txt),
      collectCont allFields ls =
        (ls.map pyStrip).takeWhile (fun l => !l.isEmpty && !isFieldKey l allFields)) ∧
    (∀ (allFields : List FieldDef) (lines : List Txt) (i maxValueLines : Nat),
      (collectCont allFields
        (pySlice lines (i + 1) (min (i + maxValueLines + 1) lines.length))).length ≤
          maxValueLines) ∧
    (seqExtractFieldValue 10 (splitOnNl demoSeqText) kenmeiField [kenmeiField, shimeiField]).1 =
      some "請求書".data := by
  refine ⟨collectCont_eq_takeWhile, ?_, by rfl⟩
  intro allFields lines i m
  refine le_trans (collectCont_length_le _ _) ?_
  unfold pySlice
  simp only [List.length_drop, List.length_take]
  omega

/-- C8: the extracted-field map (indeed the whole smart result apart from the
wall-clock timestamp) is a function of the field configuration and the
document alone — two runs at different times agree byte for byte. -/
theorem C8_determinism (cfg : SmartConfig) (doc : SDoc) (now1 now2 : Txt) :
    smartEraseTimestamp (extractSmartFields cfg now1 doc) =
      smartEraseTimestamp (extractSmartFields cfg now2 doc) := by
  obtain ⟨text, pages⟩ := doc
  cases pages <;> rfl

/-- C7: pattern-match confidences always lie in [0.1, 1.0]; and, assuming
every token confidence lies in [0, 1], every candidate emitted by
`_extract_field_by_patterns` (pattern-based or context-based) has confidence
in [0.0, 1.0]. -/
theorem C7_confidence_bounds :
    (∀ t p : Txt, 1/10 ≤ calculatePatternConfidence t p ∧ calculatePatternConfidence t p ≤ 1) ∧
    (∀ (fieldName : Txt) (cfg : FieldConfig) (tokens : List STok) (fullText : Txt)
      (fr : FieldResult) (c : Cand),
      (∀ tok ∈ tokens, 0 ≤ tok.confidence ∧ tok.confidence ≤ 1) →
      extractFieldByPatterns fieldName cfg tokens fullText = some fr →
      c ∈ fr.all → 0 ≤ c.conf ∧ c.conf ≤ 1) := by
  constructor
  · exact calculatePatternConfidence_bounds
  · intro fieldName cfg tokens fullText fr c htok hex hc
    simp only [extractFieldByPatterns] at hex
    split at hex
    · simp at hex
    · obtain rfl := Option.some.inj hex
      have h1 : c ∈ sortCands (deduplicateValues _) := List.mem_of_mem_take hc
      have h2 : c ∈ deduplicateValues _ := mem_sortCands.1 h1
      have h3 := dedupGo_sub h2
      rcases List.mem_append.1 h3 with h4 | h4
      · rw [List.mem_flatMap] at h4
        obtain ⟨p, _, h5⟩ := h4
        rw [List.mem_map] at h5
        obtain ⟨⟨sp, ep⟩, _, h6⟩ := h5
        obtain rfl := h6
        dsimp only
        have hb := calculatePatternConfidence_bounds (pySlice fullText sp ep) p.src
        exact ⟨le_trans (by norm_num) hb.1, hb.2⟩
      · rw [List.mem_flatMap] at h4
        obtain ⟨clue, _, h5⟩ := h4
        obtain ⟨t, ht, he⟩ := findContextBasedValues_conf tokens clue fieldName c h5
        obtain ⟨ht0, ht1⟩ := htok t ht
        rw [he]
        constructor
        · exact mul_nonneg ht0 (by norm_num)
        · calc t.confidence * (8/10) ≤ 1 * (8/10) :=
              mul_le_mul_of_nonneg_right ht1 (by norm_num)
            _ ≤ 1 := by norm_num

/-- C7 witness: the pattern heuristic on the two-character match `12` with
pattern source `p`, and the single candidate the extractor emits for it. -/
theorem C7_confidence_bounds_witness :
    (1/10 ≤ calculatePatternConfidence "12".data "p".data ∧
      calculatePatternConfidence "12".data "p".data ≤ 1) ∧
    (0 ≤ demoAmountCand.conf ∧ demoAmountCand.conf ≤ 1) := by
  refine ⟨C7_confidence_bounds.1 "12".data "p".data, ?_⟩
  exact C7_confidence_bounds.2 "金額".data demoAmountCfg [] demoAmountText
    ⟨1, some demoAmountCand, [demoAmountCand], "金額".data⟩ demoAmountCand
    (by simp) (by rfl) (List.mem_singleton.2 rfl)

/-- C9: both layout-rich pipelines tokenize only the first page; two
documents with the same full text and the same first page produce identical
results apart from the reported page count. -/
theorem C9_first_page_only :
    (∀ (cfg : SmartConfig) (now : Txt) (d1 d2 : SDoc) (p : SPage),
      d1.text = d2.text → d1.pages.head? = some p → d2.pages.head? = some p →
      smartErasePageCount (extractSmartFields cfg now d1) =
        smartErasePageCount (extractSmartFields cfg now d2)) ∧
    (∀ (fp : FormPatterns) (defs : FormDefs) (now : Txt) (d1 d2 : SDoc) (p : SPage),
      d1.text = d2.text → d1.pages.head? = some p → d2.pages.head? = some p →
      formErasePageCount (formProcessDocument fp defs now d1) =
        formErasePageCount (formProcessDocument fp defs now d2)) := by
  constructor
  · intro cfg now d1 d2 p htext h1 h2
    obtain ⟨t1, pg1⟩ := d1
    obtain ⟨t2, pg2⟩ := d2
    obtain rfl : t1 = t2 := htext
    cases pg1 with
    | nil => simp at h1
    | cons q1 r1 =>
      cases pg2 with
      | nil => simp at h2
      | cons q2 r2 =>
        obtain rfl : q1 = p := by simpa using h1
        obtain rfl : q2 = q1 := by simpa using h2
        rfl
  · intro fp defs now d1 d2 p htext h1 h2
    obtain ⟨t1, pg1⟩ := d1
    obtain ⟨t2, pg2⟩ := d2
    obtain rfl : t1 = t2 := htext
    cases pg1 with
    | nil => simp at h1
    | cons q1 r1 =>
      cases pg2 with
      | nil => simp at h2
      | cons q2 r2 =>
        obtain rfl : q1 = p := by simpa using h1
        obtain rfl : q2 = q1 := by simpa using h2
        rfl

/-- C9 witness: a one-page document and a two-page document sharing text and
first page give equal erased results while reporting page counts 1 and 2. -/
theorem C9_first_page_only_witness :
    smartErasePageCount (extractSmartFields [] [] demoDoc1) =
      smartErasePageCount (extractSmartFields [] [] demoDoc2) ∧
    formErasePageCount (formProcessDocument ⟨[], [], []⟩ ⟨[], []⟩ [] demoDoc1) =
      formErasePageCount (formProcessDocument ⟨[], [], []⟩ ⟨[], []⟩ [] demoDoc2) ∧
    smartPageCount (extractSmartFields [] [] demoDoc1) = 1 ∧
    smartPageCount (extractSmartFields [] [] demoDoc2) = 2 := by
  refine ⟨C9_first_page_only.1 [] [] demoDoc1 demoDoc2 demoPage rfl rfl rfl,
    C9_first_page_only.2 ⟨[], [], []⟩ ⟨[], []⟩ [] demoDoc1 demoDoc2 demoPage rfl rfl rfl,
    rfl, rfl⟩

/-- C10: in the key-value strategy, one extracted label/value pair whose
label matches patterns of several field definitions assigns the (stripped)
value to every matching field's key — the per-field pattern loop breaks on
first match, but matching continues over the remaining fields. -/
theorem C10_label_multi_assign (findAll : Txt → List (Txt × Txt)) (text : Txt)
    (fields : List FieldDef) (label value : Txt) (f : FieldDef)
    (hne : text.isEmpty = false) (hfa : findAll text = [(label, value)])
    (hf : f ∈ fields)
    (hmatch : f.patterns.any (fun p => (p (pyStrip label)).isSome) = true) :
    dictGet (kvParse findAll text fields).data f.key = some (pyStrip value) := by
  unfold kvParse
  rw [if_neg (by simp [hne])]
  dsimp only
  rw [hfa, List.foldl_cons, List.foldl_nil]
  exact kvFold_get (pyStrip value)
    (fun field => field.patterns.any fun p => (p (pyStrip label)).isSome)
    fields [] (by simp) f hf hmatch

/-- C10 witness: one extracted pair `住所: 東京都` with two always-matching
field definitions `a` and `b` — both keys receive the value. -/
theorem C10_label_multi_assign_witness :
    dictGet (kvParse demoFindAll "x".data [demoFieldA, demoFieldB]).data "a".data =
      some (pyStrip "東京都".data) ∧
    dictGet (kvParse demoFindAll "x".data [demoFieldA, demoFieldB]).data "b".data =
      some (pyStrip "東京都".data) := by
  constructor
  · exact C10_label_multi_assign demoFindAll "x".data [demoFieldA, demoFieldB]
      "住所".data "東京都".data demoFieldA rfl rfl (List.mem_cons_self _ _) (by rfl)
  · exact C10_label_multi_assign demoFindAll "x".data [demoFieldA, demoFieldB]
      "住所".data "東京都".data demoFieldB rfl rfl
      (List.mem_cons_of_mem _ (List.mem_cons_self _ _)) (by rfl)
